import Mathlib

/-!
# Verification of the Vaarattu community playlist maker

Shallow embedding of `src/main.py` (a Twitch-redemptions-to-Spotify-playlist
script) together with proofs about its core pipeline: the Spotify track
reference parser, the redemption classifier, the track list assembler, the
batching playlist writer, the OAuth wait loop, and the top-level control
flow of `main`.

Text is modelled as `List Char`.  Python `None`-able strings are modelled as
`Option (List Char)`.
-/

namespace Playlist

/-- A piece of text (a Python `str`). -/
abbrev Str := List Char

/-- The character class of the captured id, regex class a-z A-Z 0-9. -/
def isAlnumChar (c : Char) : Bool :=
  (('a' ≤ c) && (c ≤ 'z')) || (('A' ≤ c) && (c ≤ 'Z')) || (('0' ≤ c) && (c ≤ '9'))

/-- Greedy capture of `([a-zA-Z0-9]+)`: the maximal alphanumeric run at the
front of `cs`, or `none` when the run would be empty (the `+` needs at least
one character). -/
def captureAlnum (cs : Str) : Option Str :=
  let run := cs.takeWhile isAlnumChar
  if run.isEmpty then none else some run

/-- Try to match one literal alternative followed by `([a-zA-Z0-9]+)` at the
current position. -/
def matchLitAt (lit : Str) (cs : Str) : Option Str :=
  if lit.isPrefixOf cs then captureAlnum (cs.drop lit.length) else none

/-- Try each literal alternative of a pattern at the current position, in
order. -/
def matchAltsAt (lits : List Str) (cs : Str) : Option Str :=
  match lits with
  | [] => none
  | l :: ls =>
    match matchLitAt l cs with
    | some r => some r
    | none => matchAltsAt ls cs

/-- Model of re.search for a pattern of the shape `<literal>([a-zA-Z0-9]+)` (with a
list of literal alternatives): scan left to right to the leftmost match, returning its capture group. -/
def searchCapture (lits : List Str) : Str → Option Str
  | [] => none
  | c :: cs =>
    match matchAltsAt lits (c :: cs) with
    | some r => some r
    | none => searchCapture lits cs

/-- The pattern list of `parse_spotify_url` (src/main.py lines 248-252), each
regex rendered as its literal alternatives followed by the captured
alphanumeric run:
`https?://open\.spotify\.com/track/([a-zA-Z0-9]+)` (the `s?` gives two
alternatives), `spotify:track:([a-zA-Z0-9]+)`, `track/([a-zA-Z0-9]+)`. -/
def codePatterns : List (List Str) :=
  [ ["https://open.spotify.com/track/".toList, "http://open.spotify.com/track/".toList]
  , ["spotify:track:".toList]
  , ["track/".toList] ]

/-- The `for pattern in patterns` loop: first pattern whose search succeeds
wins. -/
def searchPatterns (pats : List (List Str)) (text : Str) : Option Str :=
  match pats with
  | [] => none
  | p :: ps =>
    match searchCapture p text with
    | some r => some r
    | none => searchPatterns ps text

/-- Function parse_spotify_url (src/main.py lines 241-259).  The falsiness
guard on the input covers both None and the empty string, hence the `Option`
input. -/
def parse_spotify_url (text : Option Str) : Option Str :=
  match text with
  | none => none
  | some t => if t.isEmpty then none else searchPatterns codePatterns t


/-- Reference pattern list following the spec and claim words for the Track
Reference Parser: (a) a web URL `https://open.<service>.com/track/<id>`, then
(b) a URI `<service>:track:<id>`, then (c) a bare path fragment `track/<id>`,
with `<service>` instantiated to the service of this program, `spotify`. -/
def specPatterns : List (List Str) :=
  [ ["https://open.spotify.com/track/".toList]
  , ["spotify:track:".toList]
  , ["track/".toList] ]

/-- Reference Track Reference Parser, built from the spec words: test the
three patterns in order, return the captured alphanumeric identifier of the
first successful match, and return no match (without throwing) on empty or
null input. -/
def specParse (text : Option Str) : Option Str :=
  match text with
  | none => none
  | some t => if t.isEmpty then none else searchPatterns specPatterns t

/-- Reference pattern list amended so that pattern (a) also accepts the plain
`http` scheme, matching the regex `https?://` in the code. -/
def specPatternsAmended : List (List Str) :=
  [ ["https://open.spotify.com/track/".toList, "http://open.spotify.com/track/".toList]
  , ["spotify:track:".toList]
  , ["track/".toList] ]

/-- The amended reference Track Reference Parser: as `specParse`, but pattern
(a) accepts both `http://` and `https://` schemes. -/
def specParseAmended (text : Option Str) : Option Str :=
  match text with
  | none => none
  | some t => if t.isEmpty then none else searchPatterns specPatternsAmended t

/-- Text on which the code parser and the literal reference disagree: the
code pattern (a) also accepts the `http` scheme and wins, while the
reference falls through to pattern (b). -/
def c1Text : Str := "http://open.spotify.com/track/AAA spotify:track:BBB".toList

/-! ## Redemption classifier (src/main.py lines 312-337) -/

/-- A Twitch channel point redemption as consumed by the classifier.  The
`user_input` field may be absent from the JSON record, hence the `Option`;
the code reads it with a dictionary get defaulting to the empty string. -/
structure Redemption where
  user_input : Option Str
  user_name : Str
  redeemed_at : Str
  status : Str
  deriving DecidableEq, Repr

/-- An entry of `song_requests` (a DirectRequest). -/
structure DirectRequest where
  track_id : Str
  user : Str
  redeemed_at : Str
  status : Str
  original_input : Str
  deriving DecidableEq, Repr

/-- An entry of `search_requests` (a SearchRequest). -/
structure SearchRequest where
  search_query : Str
  user : Str
  redeemed_at : Str
  status : Str
  deriving DecidableEq, Repr

/-- The outcome of classifying one redemption: the two emitted record kinds
and the two discard diagnostics printed by the code. -/
inductive Classified where
  | direct : DirectRequest → Classified
  | search : SearchRequest → Classified
  | discardedUrl : Classified
  | discardedEmpty : Classified
  deriving DecidableEq, Repr

/-- Python `str.lower` over the characters of the text. -/
def toLowerStr (cs : Str) : Str := cs.map Char.toLower

/-- Python `pat in s` on strings: `pat` occurs as a contiguous substring. -/
def substrOf (pat : Str) : Str → Bool
  | [] => pat.isPrefixOf []
  | c :: cs => pat.isPrefixOf (c :: cs) || substrOf pat cs

/-- The URL marker test of the classifier:
the lowercased text contains http://, https:// or www. as a substring. -/
def containsUrlMarker (cs : Str) : Bool :=
  let low := toLowerStr cs
  substrOf "http://".toList low || substrOf "https://".toList low
    || substrOf "www.".toList low

/-- Python whitespace stripped by `str.strip()` (ASCII portion). -/
def isSpaceChar (c : Char) : Bool :=
  c = ' ' || c = '\t' || c = '\n' || c = '\r' || c = '\x0b' || c = '\x0c'

/-- Python `str.strip()`: drop leading and trailing whitespace. -/
def stripStr (cs : Str) : Str :=
  ((cs.dropWhile isSpaceChar).reverse.dropWhile isSpaceChar).reverse

/-- The `elif` chain that runs once `track_id` is falsy (src/main.py lines
326-337). -/
def classifyNoTrack (r : Redemption) (user_input : Str) : Classified :=
  if containsUrlMarker user_input then Classified.discardedUrl
  else if !(stripStr user_input).isEmpty then
    Classified.search ⟨user_input, r.user_name, r.redeemed_at, r.status⟩
  else Classified.discardedEmpty

/-- Classification of one redemption (the body of the `for redemption in
redemptions` loop, src/main.py lines 312-337).  `if track_id:` is Python
truthiness: `None` and the empty string both fall through to the `elif`
chain. -/
def classify (r : Redemption) : Classified :=
  let user_input := r.user_input.getD []
  match parse_spotify_url (some user_input) with
  | some tid =>
    if tid.isEmpty then classifyNoTrack r user_input
    else Classified.direct ⟨tid, r.user_name, r.redeemed_at, r.status, user_input⟩
  | none => classifyNoTrack r user_input

/-- The two output lists built by the classification loop of
`get_song_requests_from_twitch`, in fetch order. -/
def classifyAll (rs : List Redemption) : List DirectRequest × List SearchRequest :=
  ( rs.filterMap fun r => match classify r with | Classified.direct d => some d | _ => none
  , rs.filterMap fun r => match classify r with | Classified.search s => some s | _ => none )

/-- How many redemptions the loop discards (either diagnostic). -/
def discardCount (rs : List Redemption) : Nat :=
  (rs.filter fun r => match classify r with
    | Classified.discardedUrl => true
    | Classified.discardedEmpty => true
    | _ => false).length

/-! ## Search resolver (src/main.py lines 384-404) -/

/-- The top track returned by `sp.search` for a query. -/
structure TrackInfo where
  id : Str
  uri : Str
  name : Str
  artist : Str
  deriving DecidableEq, Repr

/-- Outcome of one `sp.search` call: the call raised, returned an empty item
list, or returned a top track. -/
inductive SearchOutcome where
  | raised : SearchOutcome
  | noResults : SearchOutcome
  | found : TrackInfo → SearchOutcome
  deriving DecidableEq, Repr

/-- An entry of `search_results`. -/
structure SearchResult where
  track_id : Str
  track_uri : Str
  track_name : Str
  artist : Str
  user : Str
  search_query : Str
  deriving DecidableEq, Repr

/-- The body of the `for search_req in search_requests` loop: a hit appends a
`SearchResult`; a miss or a caught exception appends nothing. -/
def resolveOne (sp : Str → SearchOutcome) (req : SearchRequest) : Option SearchResult :=
  match sp req.search_query with
  | SearchOutcome.found t =>
    some ⟨t.id, t.uri, t.name, t.artist, req.user, req.search_query⟩
  | SearchOutcome.noResults => none
  | SearchOutcome.raised => none

/-- The whole search loop, `sp` abstracting the external search service. -/
def processSearches (sp : Str → SearchOutcome) (reqs : List SearchRequest) :
    List SearchResult :=
  reqs.filterMap (resolveOne sp)

/-! ## Track list assembler (src/main.py lines 377-412) -/

/-- The f-string spotify:track:<id> applied to a track id. -/
def trackUriOf (tid : Str) : Str := "spotify:track:".toList ++ tid

/-- One step of building `dict.fromkeys`: insert a key at the end unless it
is already present. -/
def insertKey {α} [DecidableEq α] (acc : List α) (x : α) : List α :=
  if x ∈ acc then acc else acc ++ [x]

/-- `list(dict.fromkeys(l))` (src/main.py line 412): remove duplicates while
preserving first occurrence order. -/
def dedupFirst {α} [DecidableEq α] (l : List α) : List α :=
  l.foldl insertKey []

/-- The assembled track URI list `all_track_uris` after dedup: direct-request
URIs first, then search-result URIs, duplicates removed keeping first
occurrences. -/
def create_track_uris (song_requests : List DirectRequest)
    (search_results : List SearchResult) : List Str :=
  let track_uris := song_requests.map fun req => trackUriOf req.track_id
  let search_track_uris := search_results.map fun res => res.track_uri
  dedupFirst (track_uris ++ search_track_uris)

/-! ## Playlist writer batching (src/main.py lines 414-429) -/

/-- The constant batch_size = 100. -/
def batch_size : Nat := 100

/-- The batches visited by `for i in range(0, len(l), batch_size)` with
`batch = l[i:i + batch_size]`: consecutive chunks of at most 100 items, in
input order. -/
def batches {α} (l : List α) : List (List α) :=
  if l.isEmpty then [] else l.take batch_size :: batches (l.drop batch_size)
termination_by l.length
decreasing_by
  simp only [List.length_drop]
  cases l with
  | nil => simp_all
  | cons a as => simp [batch_size]; omega

/-- The batch-add loop with its `added_count` and `failed_tracks`
accumulators.  `addOk i` abstracts whether the i-th `sp.playlist_add_items`
call raises: on success the batch length is added to the count, on a caught
exception the batch is appended to the failed list, and the loop continues
either way. -/
def addLoop {α} (addOk : Nat → Bool) :
    List (List α) → Nat → Nat → List α → Nat × List α
  | [], _, added, failed => (added, failed)
  | b :: bs, i, added, failed =>
    if addOk i then addLoop addOk bs (i + 1) (added + b.length) failed
    else addLoop addOk bs (i + 1) added (failed ++ b)

/-- The final pair (added_count, failed_tracks) of the writer for a URI list
and add-call outcome oracle. -/
def writeResult {α} (addOk : Nat → Bool) (uris : List α) : Nat × List α :=
  addLoop addOk (batches uris) 0 0 []

/-- Total length added by the successful batches, counting from index `i`. -/
def sumOk {α} (addOk : Nat → Bool) : Nat → List (List α) → Nat
  | _, [] => 0
  | i, b :: bs => (if addOk i then b.length else 0) + sumOk addOk (i + 1) bs

/-- Concatenation of the failed batches, counting from index `i`. -/
def joinFailed {α} (addOk : Nat → Bool) : Nat → List (List α) → List α
  | _, [] => []
  | i, b :: bs => (if addOk i then [] else b) ++ joinFailed addOk (i + 1) bs

/-! ## Fetch control flow and `main` (src/main.py lines 262-342, 453-484) -/

/-- A custom channel point reward (title and id). -/
structure Reward where
  title : Str
  id : Str
  deriving DecidableEq, Repr

/-- The constant REWARD_NAME, the literal song request bot. -/
def REWARD_NAME : Str := "song request bot".toList

/-- The reward lookup loop (src/main.py lines 290-294): first reward whose
title equals `REWARD_NAME` case-insensitively. -/
def findReward (rewards : List Reward) : Option Reward :=
  rewards.find? fun rw => toLowerStr rw.title = toLowerStr REWARD_NAME

/-- Python truthiness of an optional string: None and the empty string are
falsy. -/
def optTruthy (o : Option Str) : Bool :=
  match o with
  | none => false
  | some s => !s.isEmpty

/-- The external world as seen by `get_song_requests_from_twitch`: whether
the OAuth flow succeeds, the broadcaster id lookup result, the custom reward
list, and the redemptions fetched for the matched reward. -/
structure FetchEnv where
  oauthSuccess : Bool
  broadcasterId : Option Str
  rewards : List Reward
  redemptions : List Redemption

/-- Function get_song_requests_from_twitch (src/main.py lines 262-342): every
failure path returns the pair `([], [])`; otherwise the classification loop
runs over the fetched redemptions. -/
def get_song_requests_from_twitch (env : FetchEnv) :
    List DirectRequest × List SearchRequest :=
  if !env.oauthSuccess then ([], [])
  else if !optTruthy env.broadcasterId then ([], [])
  else
    match findReward env.rewards with
    | none => ([], [])
    | some _ => classifyAll env.redemptions

/-- Python truthiness of a 2-tuple object: a tuple is always truthy, even
`([], [])`. -/
def tupleTruthy {α β} (_ : α × β) : Bool := true

/-- The observable outcome of `main` (src/main.py lines 453-484): which exit
path is taken, and, on the success path, the request lists handed to
`create_spotify_playlist`. -/
inductive MainOutcome where
  | noChannel : MainOutcome
  | fetchFailed : MainOutcome
  | noRequests : MainOutcome
  | playlistCreated : List DirectRequest → List SearchRequest → MainOutcome
  deriving DecidableEq, Repr

/-- Function main (src/main.py lines 453-484): prompt check, fetch, the `if not
result:` guard, the zero-requests guard, then playlist creation. -/
def mainRun (channel : Str) (env : FetchEnv) : MainOutcome :=
  if (stripStr channel).isEmpty then MainOutcome.noChannel
  else
    let result := get_song_requests_from_twitch env
    if !tupleTruthy result then MainOutcome.fetchFailed
    else if result.1.isEmpty && result.2.isEmpty then MainOutcome.noRequests
    else MainOutcome.playlistCreated result.1 result.2

/-! ## OAuth wait loop (src/main.py lines 144-158) -/

/-- The constant timeout = 120. -/
def oauthTimeout : Nat := 120

/-- The poll-and-sleep loop `for _ in range(timeout): await asyncio.sleep(1);
if self.access_token: break`.  `tok t` abstracts whether the access token has
arrived by tick `t`; the function returns the tick at which the loop exits
(the number of iterations executed). -/
def oauthWaitGo (tok : Nat → Bool) : Nat → Nat → Nat
  | 0, t => t
  | Nat.succ fuel, t => if tok (t + 1) then t + 1 else oauthWaitGo tok fuel (t + 1)

/-- The tail of `start_oauth_flow`: run the wait loop, then clean up and
return success iff an access token was obtained.  Result: (iterations
executed, returned Boolean). -/
def start_oauth_flow_wait (tok : Nat → Bool) : Nat × Bool :=
  let tEnd := oauthWaitGo tok oauthTimeout 0
  (tEnd, tok tEnd)

/-! ## Helper notions and lemmas

`posIn a l` is the position of the first occurrence of `a` in `l` (and
`l.length` when `a` is absent); it is the yardstick for the
first-seen-order-preservation statements.  `dedupRec` is a recursive
reformulation of `dedupFirst` that is convenient for induction. -/

/-- Position of the first occurrence of `a` in `l` (`l.length` if absent). -/
def posIn {α} [DecidableEq α] (a : α) : List α → Nat
  | [] => 0
  | x :: xs => if x = a then 0 else posIn a xs + 1

/-- Recursive form of first-occurrence dedup: keep the head, drop its later
duplicates, recurse. -/
def dedupRec {α} [DecidableEq α] : List α → List α
  | [] => []
  | x :: xs => x :: dedupRec (xs.filter fun y => decide (y ≠ x))
termination_by l => l.length
decreasing_by
  simp only [List.length_cons]
  have h := List.length_filter_le (fun y => decide (y ≠ x)) xs
  omega

/-- Redemption with a non-Spotify URL as its text. -/
def c3Record : Redemption :=
  ⟨some "https://youtube.com/watch".toList, "user".toList,
    "2024-01-01".toList, "FULFILLED".toList⟩

/-- Redemption whose record has no `user_input` field. -/
def c9Record : Redemption :=
  ⟨none, "user".toList, "2024-01-01".toList, "FULFILLED".toList⟩

/-- Environment in which the OAuth flow fails. -/
def c7Env : FetchEnv := ⟨false, none, [], []⟩

/-- Environment in which the broadcaster lookup fails. -/
def c10Env : FetchEnv := ⟨true, none, [], []⟩

/-- A search request used in concrete instantiations. -/
def c6Req : SearchRequest :=
  ⟨"please play freebird".toList, "user".toList, "2024-01-01".toList,
    "FULFILLED".toList⟩

/-- The pre-dedup assembler input: direct-request URIs then search URIs. -/
def assemblerInput (song_requests : List DirectRequest)
    (search_results : List SearchResult) : List Str :=
  song_requests.map (fun req => trackUriOf req.track_id)
    ++ search_results.map fun res => res.track_uri

/-- A direct request with the given track id (other fields fixed). -/
def mkDirect (tid : Str) : DirectRequest :=
  ⟨tid, "user".toList, "2024-01-01".toList, "FULFILLED".toList, tid⟩

/-- The `[A, B, A, C]` scenario of the assembler claim, as direct requests. -/
def c4Song : List DirectRequest :=
  [mkDirect "a".toList, mkDirect "b".toList, mkDirect "a".toList, mkDirect "c".toList]

/-- 150 direct requests with pairwise distinct track ids. -/
def c5Song : List DirectRequest :=
  (List.range 150).map fun n => mkDirect (List.replicate (n + 1) 'a')

theorem foldl_insertKey_eq {α} [DecidableEq α] (l : List α) : ∀ acc : List α,
    l.foldl insertKey acc = acc ++ dedupRec (l.filter fun y => decide (y ∉ acc)) := by
  induction l with
  | nil => intro acc; simp [dedupRec]
  | cons x xs ih =>
    intro acc
    by_cases hx : x ∈ acc
    · have hdec : (decide (x ∉ acc)) = false := by simp [hx]
      simp only [List.foldl_cons, insertKey, if_pos hx, List.filter_cons, hdec]
      exact ih acc
    · have hdec : (decide (x ∉ acc)) = true := by simp [hx]
      simp only [List.foldl_cons, insertKey, if_neg hx, List.filter_cons, hdec]
      rw [ih (acc ++ [x])]
      have hfil : (xs.filter fun y => decide (y ∉ acc ++ [x]))
          = (xs.filter fun y => decide (y ∉ acc)).filter fun y => decide (y ≠ x) := by
        rw [List.filter_filter]
        apply List.filter_congr
        intro y _
        by_cases hya : y ∈ acc
        · simp [hya]
        · by_cases hyx : y = x
          · simp [hyx]
          · simp [hya, hyx]
      rw [hfil]
      simp [dedupRec]

theorem dedupFirst_eq_dedupRec {α} [DecidableEq α] (l : List α) :
    dedupFirst l = dedupRec l := by
  have h := foldl_insertKey_eq l ([] : List α)
  have hfil : (l.filter fun y => decide (y ∉ ([] : List α))) = l := by
    apply List.filter_eq_self.mpr
    intro y _
    simp
  rw [hfil] at h
  simpa [dedupFirst] using h

theorem dedupRec_nil {α} [DecidableEq α] : dedupRec ([] : List α) = [] := by
  rw [dedupRec]

theorem dedupRec_cons {α} [DecidableEq α] (x : α) (xs : List α) :
    dedupRec (x :: xs) = x :: dedupRec (xs.filter fun y => decide (y ≠ x)) := by
  rw [dedupRec]

theorem posIn_cons_self {α} [DecidableEq α] (a : α) (l : List α) :
    posIn a (a :: l) = 0 := by
  simp [posIn]

theorem posIn_cons_ne {α} [DecidableEq α] {x a : α} (h : ¬x = a) (l : List α) :
    posIn a (x :: l) = posIn a l + 1 := by
  simp [posIn, h]

theorem dedupRec_sublist {α} [DecidableEq α] (l : List α) :
    List.Sublist (dedupRec l) l := by
  match l with
  | [] =>
    rw [dedupRec_nil]
  | x :: xs =>
    have ih := dedupRec_sublist (xs.filter fun y => decide (y ≠ x))
    have hsub : List.Sublist (dedupRec (xs.filter fun y => decide (y ≠ x))) xs :=
      ih.trans (List.filter_sublist xs)
    rw [dedupRec_cons]
    exact hsub.cons₂ x
termination_by l.length
decreasing_by
  simp only [List.length_cons]
  have h := List.length_filter_le (fun y => decide (y ≠ x)) xs
  omega

theorem dedupRec_mem {α} [DecidableEq α] (l : List α) (a : α) :
    a ∈ dedupRec l ↔ a ∈ l := by
  match l with
  | [] => rw [dedupRec_nil]
  | x :: xs =>
    have ih := dedupRec_mem (xs.filter fun y => decide (y ≠ x)) a
    rw [dedupRec_cons]
    by_cases hax : a = x
    · simp [hax]
    · simp only [List.mem_cons, ih, List.mem_filter]
      simp [hax]
termination_by l.length
decreasing_by
  simp only [List.length_cons]
  have h := List.length_filter_le (fun y => decide (y ≠ x)) xs
  omega

theorem dedupRec_nodup {α} [DecidableEq α] (l : List α) : (dedupRec l).Nodup := by
  match l with
  | [] =>
    rw [dedupRec_nil]
    exact List.nodup_nil
  | x :: xs =>
    have ih := dedupRec_nodup (xs.filter fun y => decide (y ≠ x))
    have hx : x ∉ dedupRec (xs.filter fun y => decide (y ≠ x)) := by
      intro hmem
      have := (dedupRec_mem _ x).mp hmem
      simp at this
    rw [dedupRec_cons]
    exact List.nodup_cons.mpr ⟨hx, ih⟩
termination_by l.length
decreasing_by
  simp only [List.length_cons]
  have h := List.length_filter_le (fun y => decide (y ≠ x)) xs
  omega

theorem dedupRec_eq_self_of_nodup {α} [DecidableEq α] (l : List α)
    (h : l.Nodup) : dedupRec l = l := by
  match l with
  | [] => rw [dedupRec_nil]
  | x :: xs =>
    rw [List.nodup_cons] at h
    have hfil : (xs.filter fun y => decide (y ≠ x)) = xs := by
      apply List.filter_eq_self.mpr
      intro y hy
      simp only [decide_eq_true_eq]
      intro hyx
      exact h.1 (hyx ▸ hy)
    rw [dedupRec_cons, hfil, dedupRec_eq_self_of_nodup xs h.2]
termination_by l.length
decreasing_by
  simp only [List.length_cons]
  omega

theorem posIn_filter_mono {α} [DecidableEq α] (p : α → Bool) (l : List α) (a b : α)
    (ha : a ∈ l) (hb : b ∈ l) (hpa : p a = true) (hpb : p b = true)
    (hab : posIn a l < posIn b l) :
    posIn a (l.filter p) < posIn b (l.filter p) := by
  induction l with
  | nil => cases ha
  | cons c cs ih =>
    by_cases hca : c = a
    · subst hca
      have hbc : ¬c = b := by
        intro h
        subst h
        rw [posIn_cons_self] at hab
        omega
      rw [List.filter_cons, if_pos hpa]
      rw [posIn_cons_self, posIn_cons_ne hbc]
      omega
    · by_cases hcb : c = b
      · subst hcb
        rw [posIn_cons_self, posIn_cons_ne hca] at hab
        omega
      · have ha2 : a ∈ cs := by
          cases ha with
          | head => exact absurd rfl hca
          | tail _ h => exact h
        have hb2 : b ∈ cs := by
          cases hb with
          | head => exact absurd rfl hcb
          | tail _ h => exact h
        have hab2 : posIn a cs < posIn b cs := by
          rw [posIn_cons_ne hca, posIn_cons_ne hcb] at hab
          omega
        have hrec := ih ha2 hb2 hab2
        rw [List.filter_cons]
        by_cases hpc : p c = true
        · rw [if_pos hpc]
          rw [posIn_cons_ne hca, posIn_cons_ne hcb]
          omega
        · rw [if_neg hpc]
          exact hrec

theorem dedupRec_posIn_mono {α} [DecidableEq α] (l : List α) (a b : α)
    (ha : a ∈ l) (hb : b ∈ l) (hab : posIn a l < posIn b l) :
    posIn a (dedupRec l) < posIn b (dedupRec l) := by
  match l with
  | [] => cases ha
  | x :: xs =>
    by_cases hxa : x = a
    · subst hxa
      have hbx : ¬x = b := by
        intro h
        subst h
        rw [posIn_cons_self] at hab
        omega
      rw [dedupRec_cons, posIn_cons_self, posIn_cons_ne hbx]
      omega
    · by_cases hxb : x = b
      · subst hxb
        rw [posIn_cons_self, posIn_cons_ne hxa] at hab
        omega
      · have ha2 : a ∈ xs := by
          cases ha with
          | head => exact absurd rfl hxa
          | tail _ h => exact h
        have hb2 : b ∈ xs := by
          cases hb with
          | head => exact absurd rfl hxb
          | tail _ h => exact h
        have hab2 : posIn a xs < posIn b xs := by
          rw [posIn_cons_ne hxa, posIn_cons_ne hxb] at hab
          omega
        have hpa : (fun y => decide (y ≠ x)) a = true := by
          simp only [decide_eq_true_eq]
          intro h
          exact hxa h.symm
        have hpb : (fun y => decide (y ≠ x)) b = true := by
          simp only [decide_eq_true_eq]
          intro h
          exact hxb h.symm
        have hfil := posIn_filter_mono (fun y => decide (y ≠ x)) xs a b ha2 hb2 hpa hpb hab2
        have hamem : a ∈ xs.filter fun y => decide (y ≠ x) := by
          rw [List.mem_filter]
          exact ⟨ha2, hpa⟩
        have hbmem : b ∈ xs.filter fun y => decide (y ≠ x) := by
          rw [List.mem_filter]
          exact ⟨hb2, hpb⟩
        have hrec := dedupRec_posIn_mono (xs.filter fun y => decide (y ≠ x)) a b hamem hbmem hfil
        rw [dedupRec_cons, posIn_cons_ne hxa, posIn_cons_ne hxb]
        omega
termination_by l.length
decreasing_by
  simp only [List.length_cons]
  have h := List.length_filter_le (fun y => decide (y ≠ x)) xs
  omega

theorem addLoop_eq {α} (addOk : Nat → Bool) (bs : List (List α)) :
    ∀ (i added : Nat) (failed : List α),
      addLoop addOk bs i added failed
        = (added + sumOk addOk i bs, failed ++ joinFailed addOk i bs) := by
  induction bs with
  | nil => intro i added failed; simp [addLoop, sumOk, joinFailed]
  | cons b rest ih =>
    intro i added failed
    cases h : addOk i with
    | true =>
      simp only [addLoop, sumOk, joinFailed, h]
      rw [ih (i + 1) (added + b.length) failed]
      simp [Nat.add_assoc]
    | false =>
      simp only [addLoop, sumOk, joinFailed, h]
      rw [ih (i + 1) added (failed ++ b)]
      simp [List.append_assoc]

theorem sumOk_add_joinFailed_length {α} (addOk : Nat → Bool) (bs : List (List α)) :
    ∀ i : Nat, sumOk addOk i bs + (joinFailed addOk i bs).length
      = (bs.map List.length).sum := by
  induction bs with
  | nil => intro i; simp [sumOk, joinFailed]
  | cons b rest ih =>
    intro i
    have hrec := ih (i + 1)
    cases h : addOk i with
    | true =>
      simp only [sumOk, joinFailed, h, List.map_cons, List.sum_cons]
      simp only [if_true, List.nil_append]
      omega
    | false =>
      simp only [sumOk, joinFailed, h, List.map_cons, List.sum_cons]
      simp only [Bool.false_eq_true, if_false, List.length_append]
      omega

theorem batches_nil {α} : batches ([] : List α) = [] := by
  rw [batches]
  rfl

theorem batches_cons {α} (l : List α) (h : ¬l.isEmpty = true) :
    batches l = l.take batch_size :: batches (l.drop batch_size) := by
  rw [batches]
  simp [h]

theorem batches_length_le {α} (l : List α) :
    ∀ b ∈ batches l, b.length ≤ batch_size := by
  match l with
  | [] =>
    rw [batches_nil]
    intro b hb
    cases hb
  | x :: xs =>
    intro b hb
    rw [batches_cons (x :: xs) (by simp)] at hb
    cases hb with
    | head =>
      simp only [List.length_take]
      omega
    | tail _ h => exact batches_length_le ((x :: xs).drop batch_size) b h
termination_by l.length
decreasing_by
  simp only [List.length_drop, List.length_cons, batch_size]
  omega

theorem classify_count (rs : List Redemption) :
    (classifyAll rs).1.length + (classifyAll rs).2.length + discardCount rs
      = rs.length := by
  induction rs with
  | nil => simp [classifyAll, discardCount]
  | cons r rest ih =>
    simp only [classifyAll, discardCount, List.filterMap_cons, List.filter_cons,
      List.length_cons] at ih ⊢
    cases h : classify r with
    | direct d => simp [h]; omega
    | search s => simp [h]; omega
    | discardedUrl => simp [h]; omega
    | discardedEmpty => simp [h]; omega

theorem oauthWaitGo_le (tok : Nat → Bool) :
    ∀ (fuel t : Nat), oauthWaitGo tok fuel t ≤ t + fuel := by
  intro fuel
  induction fuel with
  | zero => intro t; simp [oauthWaitGo]
  | succ f ih =>
    intro t
    simp only [oauthWaitGo]
    by_cases h : tok (t + 1) = true
    · rw [if_pos h]; omega
    · rw [if_neg h]
      have := ih (t + 1)
      omega

theorem oauthWaitGo_all_false (tok : Nat → Bool) :
    ∀ (fuel t : Nat), (∀ u, t < u → u ≤ t + fuel → tok u = false) →
      oauthWaitGo tok fuel t = t + fuel := by
  intro fuel
  induction fuel with
  | zero => intro t _; simp [oauthWaitGo]
  | succ f ih =>
    intro t h
    have h1 : tok (t + 1) = false := h (t + 1) (by omega) (by omega)
    simp only [oauthWaitGo, h1, Bool.false_eq_true, if_false]
    have := ih (t + 1) (fun u hu1 hu2 => h u (by omega) (by omega))
    omega

theorem oauthWaitGo_first (tok : Nat → Bool) :
    ∀ (fuel t k : Nat), t < k → k ≤ t + fuel → tok k = true →
      (∀ j, t < j → j < k → tok j = false) →
      oauthWaitGo tok fuel t = k := by
  intro fuel
  induction fuel with
  | zero => intro t k h1 h2 _ _; omega
  | succ f ih =>
    intro t k h1 h2 hk hbefore
    by_cases hfirst : k = t + 1
    · subst hfirst
      simp [oauthWaitGo, hk]
    · have h1' : tok (t + 1) = false := hbefore (t + 1) (by omega) (by omega)
      simp only [oauthWaitGo, h1', Bool.false_eq_true, if_false]
      exact ih (t + 1) k (by omega) (by omega) hk
        (fun j hj1 hj2 => hbefore j (by omega) hj2)

theorem batches_flatten {α} (l : List α) : (batches l).flatten = l := by
  match l with
  | [] =>
    rw [batches_nil]
    rfl
  | x :: xs =>
    rw [batches_cons (x :: xs) (by simp)]
    rw [List.flatten_cons]
    rw [batches_flatten ((x :: xs).drop batch_size)]
    exact List.take_append_drop batch_size (x :: xs)
termination_by l.length
decreasing_by
  simp only [List.length_drop, List.length_cons, batch_size]
  omega

/-! ## Claim theorems -/

/-- C1 counterexample: the Track Reference Parser does not equal the
reference definition whose pattern (a) is literally
`https://open.spotify.com/track/<id>`: on text containing an `http` (no `s`)
track URL followed by a `spotify:track:` URI, the code pattern (a) (regex
`https?://...`) captures the URL id while the reference falls through to
pattern (b) and captures the URI id. -/
theorem parser_differs_from_literal_reference :
    parse_spotify_url (some c1Text) = some "AAA".toList
      ∧ specParse (some c1Text) = some "BBB".toList
      ∧ parse_spotify_url (some c1Text) ≠ specParse (some c1Text) :=
  ⟨by decide, by decide, by decide⟩

/-- C1 (amended): for every input text, `parse_spotify_url` equals the
reference definition that tests, in order, pattern (a) a web URL
`http(s)://open.spotify.com/track/<id>` (optional `s` in the scheme), then (b)
a URI `spotify:track:<id>`, then (c) a bare path fragment `track/<id>`,
returning the captured alphanumeric identifier of the first successful match;
for
any other text, including empty or null input, both return no match and never
throw; (a) wins over (b) and (b) wins over (c). -/
theorem parser_matches_amended_reference (text : Option Str) :
    parse_spotify_url text = specParseAmended text := by
  cases text with
  | none => rfl
  | some t => rfl

/-- C2: classification is total and mutually exclusive — the classifier is a
total function on redemption records, each record falls in exactly one of the
three buckets (DirectRequest, SearchRequest, discarded), and the bucket
sizes add up to the number of records. -/
theorem classifier_total_and_exclusive (rs : List Redemption) (r : Redemption) :
    ((classifyAll rs).1.length + (classifyAll rs).2.length + discardCount rs
        = rs.length)
    ∧ (((∃ d, classify r = Classified.direct d)
          ∧ (¬∃ s, classify r = Classified.search s)
          ∧ classify r ≠ Classified.discardedUrl
          ∧ classify r ≠ Classified.discardedEmpty)
      ∨ ((∃ s, classify r = Classified.search s)
          ∧ (¬∃ d, classify r = Classified.direct d)
          ∧ classify r ≠ Classified.discardedUrl
          ∧ classify r ≠ Classified.discardedEmpty)
      ∨ ((classify r = Classified.discardedUrl
            ∨ classify r = Classified.discardedEmpty)
          ∧ (¬∃ d, classify r = Classified.direct d)
          ∧ (¬∃ s, classify r = Classified.search s))) := by
  refine ⟨classify_count rs, ?_⟩
  cases h : classify r with
  | direct d =>
    left
    simp [h]
  | search s =>
    right
    left
    simp [h]
  | discardedUrl =>
    right
    right
    simp [h]
  | discardedEmpty =>
    right
    right
    simp [h]

/-- C3: a redemption whose text contains a URL marker but is not a Spotify
track reference is discarded with the non-Spotify-URL diagnostic and never
becomes a SearchRequest. -/
theorem url_nonspotify_always_discarded (r : Redemption)
    (hurl : containsUrlMarker (r.user_input.getD []) = true)
    (hparse : parse_spotify_url (some (r.user_input.getD [])) = none) :
    classify r = Classified.discardedUrl
      ∧ ∀ s, classify r ≠ Classified.search s := by
  have hcl : classify r = Classified.discardedUrl := by
    simp [classify, hparse, classifyNoTrack, hurl]
  refine ⟨hcl, ?_⟩
  intro s hcontra
  rw [hcl] at hcontra
  cases hcontra

theorem url_nonspotify_always_discarded_witness :
    classify c3Record = Classified.discardedUrl
      ∧ ∀ s, classify c3Record ≠ Classified.search s :=
  url_nonspotify_always_discarded c3Record (by decide) (by decide)

/-- C9: a redemption record lacking the `user_input` field is read as the
empty string and discarded with the empty-input diagnostic; classification is
a total function, so it cannot raise. -/
theorem missing_user_input_discarded_empty (r : Redemption)
    (h : r.user_input = none) :
    classify r = Classified.discardedEmpty := by
  unfold classify
  rw [h]
  rfl

theorem missing_user_input_discarded_empty_witness :
    classify c9Record = Classified.discardedEmpty :=
  missing_user_input_discarded_empty c9Record rfl

/-- Every Twitch-side failure path of the fetch returns the empty pair. -/
theorem get_fail_eq_nil (env : FetchEnv)
    (h : env.oauthSuccess = false ∨ optTruthy env.broadcasterId = false
        ∨ findReward env.rewards = none) :
    get_song_requests_from_twitch env = ([], []) := by
  unfold get_song_requests_from_twitch
  cases ho : env.oauthSuccess with
  | false => simp
  | true =>
    simp only [Bool.not_true, Bool.false_eq_true, if_false]
    cases hb : optTruthy env.broadcasterId with
    | false => simp
    | true =>
      simp only [Bool.not_true, Bool.false_eq_true, if_false]
      rcases h with h | h | h
      · rw [h] at ho; cases ho
      · rw [h] at hb; cases hb
      · rw [h]

/-- A nonempty channel name plus an empty fetch result exits through the
zero-requests path. -/
theorem mainRun_noRequests (channel : Str) (env : FetchEnv)
    (hch : (stripStr channel).isEmpty = false)
    (hres : get_song_requests_from_twitch env = ([], [])) :
    mainRun channel env = MainOutcome.noRequests := by
  simp [mainRun, hch, hres, tupleTruthy]

/-- C7: run-level failures produce no playlist — with a nonempty channel
name, if Twitch authorization fails, or if the fetch produces zero
DirectRequests and zero SearchRequests, `main` exits through the
no-requests report and never reaches the playlist-creation call. -/
theorem run_level_failures_create_no_playlist (channel : Str) (env : FetchEnv)
    (hch : (stripStr channel).isEmpty = false) :
    (env.oauthSuccess = false →
        mainRun channel env = MainOutcome.noRequests
          ∧ ∀ d s, mainRun channel env ≠ MainOutcome.playlistCreated d s)
    ∧ (get_song_requests_from_twitch env = ([], []) →
        mainRun channel env = MainOutcome.noRequests
          ∧ ∀ d s, mainRun channel env ≠ MainOutcome.playlistCreated d s) := by
  constructor
  · intro hoauth
    have hres := get_fail_eq_nil env (Or.inl hoauth)
    have h1 := mainRun_noRequests channel env hch hres
    refine ⟨h1, ?_⟩
    intro d s hcontra
    rw [h1] at hcontra
    cases hcontra
  · intro hres
    have h1 := mainRun_noRequests channel env hch hres
    refine ⟨h1, ?_⟩
    intro d s hcontra
    rw [h1] at hcontra
    cases hcontra

theorem run_level_failures_create_no_playlist_witness :
    mainRun "chan".toList c7Env = MainOutcome.noRequests :=
  ((run_level_failures_create_no_playlist "chan".toList c7Env (by decide)).1 rfl).1

/-- C10: the `if not result:` branch of `main` is unreachable —
`get_song_requests_from_twitch` returns a 2-tuple on every path, a Python
tuple is always truthy, so `main` never takes the fetch-failed exit; every
fatal Twitch-side failure (authentication, broadcaster lookup, reward
lookup) yields `([], [])` and exits through the zero-requests path, still
creating no playlist. -/
theorem fetch_failure_branch_unreachable (channel : Str) (env : FetchEnv) :
    tupleTruthy (get_song_requests_from_twitch env) = true
    ∧ mainRun channel env ≠ MainOutcome.fetchFailed
    ∧ ((env.oauthSuccess = false ∨ optTruthy env.broadcasterId = false
          ∨ findReward env.rewards = none) →
        get_song_requests_from_twitch env = ([], [])
          ∧ ((stripStr channel).isEmpty = false →
              mainRun channel env = MainOutcome.noRequests)) := by
  refine ⟨rfl, ?_, ?_⟩
  · intro hcontra
    unfold mainRun at hcontra
    by_cases hch : (stripStr channel).isEmpty = true
    · rw [if_pos hch] at hcontra
      cases hcontra
    · rw [if_neg hch] at hcontra
      simp only [tupleTruthy, Bool.not_true, Bool.false_eq_true, if_false] at hcontra
      by_cases hres : ((get_song_requests_from_twitch env).1.isEmpty
          && (get_song_requests_from_twitch env).2.isEmpty) = true
      · rw [if_pos hres] at hcontra
        cases hcontra
      · rw [if_neg hres] at hcontra
        cases hcontra
  · intro hfail
    have hres := get_fail_eq_nil env hfail
    exact ⟨hres, fun hch => mainRun_noRequests channel env hch hres⟩

theorem fetch_failure_branch_unreachable_witness :
    get_song_requests_from_twitch c10Env = ([], [])
      ∧ mainRun "chan".toList c10Env = MainOutcome.noRequests := by
  have h := (fetch_failure_branch_unreachable "chan".toList c10Env).2.2
    (Or.inr (Or.inl rfl))
  exact ⟨h.1, h.2 (by decide)⟩

/-- C8: the OAuth authorization wait is a bounded poll-and-sleep loop — it
executes at most 120 one-second ticks, exits at the first tick where a token
is present, and when no token arrives within the window it runs exactly 120
ticks and returns failure. -/
theorem oauth_wait_loop_bounded (tok : Nat → Bool) :
    (start_oauth_flow_wait tok).1 ≤ oauthTimeout
    ∧ ((∀ t, t ≤ oauthTimeout → 1 ≤ t → tok t = false) →
        start_oauth_flow_wait tok = (oauthTimeout, false))
    ∧ (∀ k, k ≤ oauthTimeout → 1 ≤ k → tok k = true →
        (∀ j, j < k → 1 ≤ j → tok j = false) →
        start_oauth_flow_wait tok = (k, true)) := by
  refine ⟨?_, ?_, ?_⟩
  · have h := oauthWaitGo_le tok oauthTimeout 0
    simpa [start_oauth_flow_wait] using h
  · intro h
    have heq : oauthWaitGo tok oauthTimeout 0 = oauthTimeout := by
      have h0 := oauthWaitGo_all_false tok oauthTimeout 0
        (fun u hu1 hu2 => h u (by omega) (by omega))
      omega
    have hfalse : tok oauthTimeout = false := h oauthTimeout (by omega) (by decide)
    simp [start_oauth_flow_wait, heq, hfalse]
  · intro k hk1 hk2 hktrue hbefore
    have heq : oauthWaitGo tok oauthTimeout 0 = k :=
      oauthWaitGo_first tok oauthTimeout 0 k (by omega) (by omega) hktrue
        (fun j hj0 hjk => hbefore j hjk (by omega))
    simp [start_oauth_flow_wait, heq, hktrue]

theorem oauth_wait_loop_bounded_witness :
    start_oauth_flow_wait (fun _ => false) = (oauthTimeout, false)
      ∧ start_oauth_flow_wait (fun t => decide (5 ≤ t)) = (5, true) :=
  ⟨(oauth_wait_loop_bounded (fun _ => false)).2.1 (fun t h1 h2 => rfl),
   (oauth_wait_loop_bounded (fun t => decide (5 ≤ t))).2.2 5 (by decide) (by decide)
     (by decide) (by decide)⟩

/-- C6: per-item failures are recovered locally — a search query that raises
or returns no items produces no SearchResult while the remaining queries are
still processed, and a batch-add call that raises sends exactly its batch to
the failed list while every later batch is still attempted and earlier
results are kept (no rollback): the loop result is the independent sum of the
successful batch lengths plus the concatenation of the failed batches. -/
theorem per_item_failures_recovered_locally (sp : Str → SearchOutcome)
    (req : SearchRequest) (rest : List SearchRequest) (addOk : Nat → Bool)
    (b : List Str) (bs : List (List Str)) (i added : Nat) (failed : List Str) :
    processSearches sp (req :: rest)
        = (resolveOne sp req).toList ++ processSearches sp rest
    ∧ (sp req.search_query = SearchOutcome.raised →
        processSearches sp (req :: rest) = processSearches sp rest)
    ∧ (sp req.search_query = SearchOutcome.noResults →
        processSearches sp (req :: rest) = processSearches sp rest)
    ∧ addLoop addOk bs i added failed
        = (added + sumOk addOk i bs, failed ++ joinFailed addOk i bs)
    ∧ (addOk i = false →
        addLoop addOk (b :: bs) i added failed
          = addLoop addOk bs (i + 1) added (failed ++ b)) := by
  refine ⟨?_, ?_, ?_, addLoop_eq addOk bs i added failed, ?_⟩
  · cases ho : resolveOne sp req with
    | none => simp [processSearches, List.filterMap_cons, ho]
    | some v => simp [processSearches, List.filterMap_cons, ho]
  · intro h
    have hnone : resolveOne sp req = none := by simp [resolveOne, h]
    simp [processSearches, List.filterMap_cons, hnone]
  · intro h
    have hnone : resolveOne sp req = none := by simp [resolveOne, h]
    simp [processSearches, List.filterMap_cons, hnone]
  · intro h
    simp [addLoop, h]

theorem per_item_failures_recovered_locally_witness :
    processSearches (fun _ => SearchOutcome.raised) [c6Req]
        = processSearches (fun _ => SearchOutcome.raised) []
    ∧ addLoop (fun _ => false) [["u".toList]] 0 0 []
        = addLoop (fun _ => false) [] 1 0 ([] ++ ["u".toList]) := by
  have h := per_item_failures_recovered_locally (fun _ => SearchOutcome.raised)
    c6Req [] (fun _ => false) ["u".toList] [] 0 0 []
  exact ⟨h.2.1 rfl, h.2.2.2.2 rfl⟩

/-- The second batch exists and the third does not when the list has 150
elements. -/
theorem batches_map_length_150 {α} (l : List α) (h : l.length = 150) :
    (batches l).map List.length = [100, 50] := by
  have hne : ¬l.isEmpty = true := by
    cases l with
    | nil => simp at h
    | cons x xs => simp
  rw [batches_cons l hne]
  have hlen2 : (l.drop batch_size).length = 50 := by
    rw [List.length_drop, h]
    decide
  have hne2 : ¬(l.drop batch_size).isEmpty = true := by
    intro hc
    rw [List.isEmpty_iff] at hc
    rw [hc] at hlen2
    cases hlen2
  rw [batches_cons _ hne2]
  have hdrop2 : (l.drop batch_size).drop batch_size = [] :=
    List.drop_eq_nil_of_le (by rw [hlen2]; decide)
  rw [hdrop2, batches_nil]
  have h1 : (l.take batch_size).length = 100 := by
    rw [List.length_take, h]
    decide
  have h2 : ((l.drop batch_size).take batch_size).length = 50 := by
    rw [List.length_take, hlen2]
    decide
  simp [h1, h2]

/-- C4: the Track List Assembler output is the concatenation of the
direct-request URIs (in order) with the search-result URIs (in order),
deduplicated keeping only the first occurrence of each URI: the output has no
duplicates, is a subsequence of the concatenation, keeps exactly its
elements, preserves first-seen order (first-occurrence positions stay in the
same relative order), and on the `[A, B, A, C]` input produces `[A, B, C]`. -/
theorem assembler_dedup_first_order (song : List DirectRequest)
    (res : List SearchResult) (a b : Str) :
    create_track_uris song res = dedupFirst (assemblerInput song res)
    ∧ (create_track_uris song res).Nodup
    ∧ List.Sublist (create_track_uris song res) (assemblerInput song res)
    ∧ (∀ u : Str, u ∈ create_track_uris song res ↔ u ∈ assemblerInput song res)
    ∧ (a ∈ assemblerInput song res → b ∈ assemblerInput song res →
        posIn a (assemblerInput song res) < posIn b (assemblerInput song res) →
        posIn a (create_track_uris song res) < posIn b (create_track_uris song res))
    ∧ create_track_uris c4Song []
        = [trackUriOf "a".toList, trackUriOf "b".toList, trackUriOf "c".toList] := by
  have hce : create_track_uris song res = dedupFirst (assemblerInput song res) := rfl
  have hd : dedupFirst (assemblerInput song res) = dedupRec (assemblerInput song res) :=
    dedupFirst_eq_dedupRec _
  refine ⟨hce, ?_, ?_, ?_, ?_, by decide⟩
  · rw [hce, hd]
    exact dedupRec_nodup _
  · rw [hce, hd]
    exact dedupRec_sublist _
  · intro u
    rw [hce, hd]
    exact dedupRec_mem _ u
  · intro ha hb hab
    rw [hce, hd]
    exact dedupRec_posIn_mono _ a b ha hb hab

theorem assembler_dedup_first_order_witness :
    posIn (trackUriOf "a".toList) (create_track_uris c4Song [])
      < posIn (trackUriOf "c".toList) (create_track_uris c4Song []) :=
  (assembler_dedup_first_order c4Song [] (trackUriOf "a".toList)
    (trackUriOf "c".toList)).2.2.2.2.1 (by decide) (by decide) (by decide)

/-- C5: the Playlist Writer splits the deduplicated URI sequence into
consecutive batches of at most 100 in input order (whose concatenation is the
whole sequence; 150 unique URIs give exactly the batch sizes 100 then 50),
and the added count plus the number of failed URIs equals the length of the
sequence, each URI counted exactly once. -/
theorem writer_batching_and_accounting (song : List DirectRequest)
    (res : List SearchResult) (addOk : Nat → Bool) :
    (∀ b ∈ batches (create_track_uris song res), b.length ≤ batch_size)
    ∧ (batches (create_track_uris song res)).flatten = create_track_uris song res
    ∧ (writeResult addOk (create_track_uris song res)).1
        + (writeResult addOk (create_track_uris song res)).2.length
        = (create_track_uris song res).length
    ∧ ((create_track_uris song res).length = 150 →
        (batches (create_track_uris song res)).map List.length = [100, 50]) := by
  refine ⟨batches_length_le _, batches_flatten _, ?_, batches_map_length_150 _⟩
  unfold writeResult
  rw [addLoop_eq addOk (batches (create_track_uris song res)) 0 0 []]
  have hs := sumOk_add_joinFailed_length addOk (batches (create_track_uris song res)) 0
  have hf : ((batches (create_track_uris song res)).map List.length).sum
      = (create_track_uris song res).length := by
    rw [← List.length_flatten, batches_flatten]
  simp only [Nat.zero_add, List.nil_append]
  omega

/-- The 150 assembled URIs are pairwise distinct, so dedup keeps all 150. -/
theorem c5_uris_length : (create_track_uris c5Song []).length = 150 := by
  have hinj : Function.Injective
      (fun n => trackUriOf (List.replicate (n + 1) 'a')) := by
    intro n m hnm
    simp only [trackUriOf] at hnm
    have hrep := List.append_cancel_left hnm
    have hlen : (List.replicate (n + 1) 'a').length
        = (List.replicate (m + 1) 'a').length := by rw [hrep]
    simp only [List.length_replicate] at hlen
    omega
  have hmap : assemblerInput c5Song []
      = (List.range 150).map fun n => trackUriOf (List.replicate (n + 1) 'a') := by
    simp [assemblerInput, c5Song, List.map_map, mkDirect, Function.comp]
  have hnodup : (assemblerInput c5Song []).Nodup := by
    rw [hmap]
    exact (List.nodup_range 150).map hinj
  have heq : create_track_uris c5Song [] = assemblerInput c5Song [] := by
    have h1 : create_track_uris c5Song [] = dedupFirst (assemblerInput c5Song []) := rfl
    rw [h1, dedupFirst_eq_dedupRec, dedupRec_eq_self_of_nodup _ hnodup]
  rw [heq, hmap]
  simp

theorem writer_batching_and_accounting_witness :
    (batches (create_track_uris c5Song [])).map List.length = [100, 50] :=
  (writer_batching_and_accounting c5Song [] (fun _ => true)).2.2.2 c5_uris_length

end Playlist

